import Mathlib

/-!
Verification of the core of the ogspy CLI (main.go): Open Graph snapshot
extraction (`parseOG`), snapshot diffing (`diffMaps`), the bulk-inspect
worker pool, the validate command's missing-tag check (`printMissing`),
and the monitor loop, shallowly embedded in Lean.

A `Snap` models a Go `map[string]string` as an association list in which
the first binding of a key is the current one; reading an absent key
yields `""`, matching Go's zero-value read of a missing map key.
-/

/-- A Go `map[string]string` (an Open Graph snapshot): association list,
first binding of a key wins, absent keys read as `""`. -/
abbrev Snap := List (String × String)

/-- The current binding of key `k` in `m`, if any (Go map lookup `v, ok := m[k]`). -/
def sfind : Snap → String → Option String
  | [], _ => none
  | (k', v) :: rest, k => if k' = k then some v else sfind rest k

/-- Go map read `m[k]`: the bound value, or `""` (string zero value) when absent. -/
def sget (m : Snap) (k : String) : String := (sfind m k).getD ""

/-- Go map assignment `m[k] = v`: overwrites any previous binding of `k`. -/
def insertTag (m : Snap) (k v : String) : Snap :=
  (k, v) :: m.filter (fun p => decide (p.1 ≠ k))

/-- The keys of a snapshot (`for k := range m`). -/
def keysOf (m : Snap) : List String := m.map Prod.fst

/-- The unified key set built by `diffMaps` (main.go lines 229-235):
every key of either snapshot, without duplicates. -/
def unionKeys (old new : Snap) : List String := (keysOf old ++ keysOf new).dedup

/-- `diffMaps` (main.go lines 225-244): for each key of the unified key set,
compare the two reads (absent key read as `""`) and keep the keys whose
values differ, each paired with its `(old value, new value)` tuple. -/
def diffMaps (old new : Snap) : List (String × String × String) :=
  (unionKeys old new).filterMap (fun k =>
    if sget old k ≠ sget new k then some (k, sget old k, sget new k) else none)

/-- One `<meta>` element of the parsed document: its optional `property`,
`name` and `content` attributes, as read by the goquery traversal in
`parseOG` (main.go lines 205-219). -/
structure MetaElem where
  property : Option String
  name : Option String
  content : Option String
deriving DecidableEq

/-- Go `strings.HasPrefix`, on the character sequences of the two strings. -/
def hasPfx (pre s : String) : Bool := pre.data.isPrefixOf s.data

/-- Go `strings.TrimPrefix`: drop `pre` when it is a prefix of `s`, else
return `s` unchanged. -/
def trimPfx (pre s : String) : String :=
  if hasPfx pre s then ⟨s.data.drop pre.data.length⟩ else s

/-- One attribute branch of the `parseOG` loop body (main.go lines 207-211 for
`property`, 214-218 for `name`): when the attribute is present, carries the
`"og:"` prefix, and a `content` attribute is present, store the content under
the prefix-stripped key; otherwise leave the map unchanged. -/
def applyAttr (m : Snap) (attr content : Option String) : Snap :=
  match attr, content with
  | some a, some c =>
    if hasPfx "og:" a then insertTag m (trimPfx "og:" a) c else m
  | _, _ => m

/-- The `parseOG` loop body for one `<meta>` element: the `property` branch
runs first, then the `name` branch (main.go lines 205-219). -/
def procMeta (m : Snap) (e : MetaElem) : Snap :=
  applyAttr (applyAttr m e.property e.content) e.name e.content

/-- `parseOG` (main.go lines 201-221): fold the loop body over the parsed
document's `<meta>` elements in traversal order, starting from the empty map. -/
def parseOG (doc : List MetaElem) : Snap := doc.foldl procMeta []

/-- The (key, value) stores performed by `procMeta` for one element, in order. -/
def metaWrites (e : MetaElem) : List (String × String) :=
  (match e.property, e.content with
    | some a, some c => if hasPfx "og:" a then [(trimPfx "og:" a, c)] else []
    | _, _ => []) ++
  (match e.name, e.content with
    | some a, some c => if hasPfx "og:" a then [(trimPfx "og:" a, c)] else []
    | _, _ => [])

/-- All stores performed by `parseOG` over a document, in traversal order. -/
def docWrites (doc : List MetaElem) : List (String × String) :=
  (doc.map metaWrites).flatten

/-- Replay a list of stores onto a snapshot. -/
def applyWrites (m : Snap) (ws : List (String × String)) : Snap :=
  ws.foldl (fun acc p => insertTag acc p.1 p.2) m

/-- The value of the last store to key `k` in `ws`, starting from default `d`. -/
def lastValAux (ws : List (String × String)) (k : String) (d : Option String) :
    Option String :=
  ws.foldl (fun acc p => if p.1 = k then some p.2 else acc) d

/-- The value of the last store to key `k` in `ws`, if any. -/
def lastVal (ws : List (String × String)) (k : String) : Option String :=
  lastValAux ws k none

/-- `essentialTags` (main.go line 65). -/
def essentialTags : List String := ["title", "type", "image", "url", "description"]

/-- `recommendedTags` (main.go line 68). -/
def recommendedTags : List String :=
  essentialTags ++ ["site_name", "locale", "video", "audio", "article:author",
    "article:publisher", "article:section", "article:tag"]

/-- The required-tag list selected by `printMissing` (main.go lines 272-275). -/
def requiredTags (essentialsOnly : Bool) : List String :=
  if essentialsOnly then essentialTags else recommendedTags

/-- The missing-tag list built by `printMissing` (main.go lines 277-282): every
required tag whose map read is `""`, displayed with the `"og:"` prefix. -/
def missingTags (og : Snap) (essentialsOnly : Bool) : List String :=
  ((requiredTags essentialsOnly).filter (fun k => decide (sget og k = ""))).map
    (fun k => "og:" ++ k)

/-- The exit-code-style integer returned by `printMissing`
(main.go lines 284-293): 1 when any required tag is missing, 0 otherwise. -/
def printMissingCode (og : Snap) (essentialsOnly : Bool) : Nat :=
  if (missingTags og essentialsOnly).length > 0 then 1 else 0

/-- `newValidateCmd` fails (returns a non-nil error, so the process exits 1)
iff `printMissing` returned a non-zero code (main.go lines 508-511). -/
def validateFails (og : Snap) (essentialsOnly : Bool) : Bool :=
  decide (printMissingCode og essentialsOnly ≠ 0)

/-- A worker-pool `result` (main.go lines 392-396): the URL together with
either the parsed snapshot or the fetch error description. -/
inductive FetchResult where
  | success : String → Snap → FetchResult
  | failure : String → String → FetchResult
deriving DecidableEq

/-- The URL a result reports on. -/
def FetchResult.url : FetchResult → String
  | .success u _ => u
  | .failure u _ => u

/-- One worker-loop iteration (main.go lines 413-422): fetch the URL and emit
exactly one result, failure or success; a failure makes the worker `continue`
with its next task, never stop. -/
def runTask (fetch : String → Except String Snap) (u : String) : FetchResult :=
  match fetch u with
  | .ok og => .success u og
  | .error e => .failure u e

/-- A single pool worker: it processes every task handed to it from the task
channel, producing exactly one result per task. -/
def workerRun (fetch : String → Except String Snap) (tasks : List String) :
    List FetchResult :=
  tasks.map (runTask fetch)

/-- All results produced by a pool execution in which worker `i` consumed the
task sublist `assignment[i]`; the aggregator observes these results in an
arbitrary interleaving (any permutation of this list). -/
def poolOutputs (fetch : String → Except String Snap)
    (assignment : List (List String)) : List FetchResult :=
  (assignment.map (workerRun fetch)).flatten

/-- The worker-count clamping of `newInspectCmd` (main.go lines 401-406): a
non-positive requested count defaults to `runtime.NumCPU()`, and the count is
then capped at the number of URLs. -/
def clampWorkers (w : Int) (numCPU L : Nat) : Nat :=
  let w1 : Int := if w ≤ 0 then (numCPU : Int) else w
  (if w1 > (L : Int) then (L : Int) else w1).toNat

/-- One step of the inspect aggregation loop (main.go lines 443-457): a failure
sets the exit code to 1 and contributes no entry; a success is added to the
aggregate regardless of any earlier failure. -/
def inspectStep (acc : Nat × List (String × Snap)) (r : FetchResult) :
    Nat × List (String × Snap) :=
  match r with
  | .failure _ _ => (1, acc.2)
  | .success u og => (acc.1, acc.2 ++ [(u, og)])

/-- The inspect aggregation loop over all received results, starting from exit
code 0 and an empty aggregate. -/
def inspectAggregate (rs : List FetchResult) : Nat × List (String × Snap) :=
  rs.foldl inspectStep (0, [])

/-- `newInspectCmd` returns a non-nil error iff the final exit code is
non-zero (main.go lines 466-468). -/
def inspectFailed (rs : List FetchResult) : Bool :=
  decide ((inspectAggregate rs).1 ≠ 0)

/-- Whether a result is a failure. -/
def isFailure : FetchResult → Bool
  | .failure _ _ => true
  | .success _ _ => false

/-- The successful part of a result, if any. -/
def succEntry : FetchResult → Option (String × Snap)
  | .success u og => some (u, og)
  | .failure _ _ => none

/-- A monitor `event` (main.go lines 539-542): timestamp plus the snapshot
parsed from the fetched page. -/
structure MonEvent where
  ts : String
  og : Snap
deriving DecidableEq

/-- One iteration of the monitor render loop (main.go lines 580-604): diff the
event's snapshot against the baseline, render iff the diff is non-empty, and
unconditionally replace the baseline with the event's snapshot. Result:
((diff, rendered flag), new baseline). -/
def renderCycle (prev : Snap) (ev : MonEvent) :
    (List (String × String × String) × Bool) × Snap :=
  let diff := diffMaps prev ev.og
  ((diff, decide (diff.length > 0)), ev.og)

/-- The monitor render loop over a sequence of received events: the final
baseline and the rendered diffs, one entry per event that was rendered. -/
def renderMany (prev : Snap) (evs : List MonEvent) :
    Snap × List (List (String × String × String)) :=
  evs.foldl
    (fun acc ev =>
      let r := renderCycle acc.1 ev
      (r.2, acc.2 ++ if r.1.2 then [r.1.1] else []))
    (prev, [])

/-- The per-tick fetch goroutine's emission decision (main.go lines 559-572):
a failed fetch emits no event (the goroutine only reports the error and
returns); a successful fetch emits exactly one event with the parsed
snapshot. -/
def fetchTask (ts : String) (outcome : Except String Snap) : Option MonEvent :=
  match outcome with
  | .error _ => none
  | .ok og => some ⟨ts, og⟩

/-- Whether an `Except` outcome is an error. -/
def isErrE {α : Type} : Except String α → Bool
  | .error _ => true
  | .ok _ => false

/-- The error decision of `fetchHTML` (main.go lines 157-192): a transport
error is an error, and any HTTP status ≥ 400 is an error without the body
being parsed; otherwise the document is returned. -/
def httpOutcome (transportErr : Option String) (status : Nat) (body : String) :
    Except String String :=
  match transportErr with
  | some e => .error e
  | none =>
    if status ≥ 400 then .error ("HTTP " ++ toString status) else .ok body

/-- The observable concurrency state of `newMonitorCmd` (main.go lines
545-604): whether the context has been cancelled, whether `diffChan` has been
closed, the number of per-tick fetch goroutines in flight, the number of
events delivered on `diffChan`, and whether the process has panicked. -/
structure MonState where
  cancelled : Bool
  chanClosed : Bool
  inFlight : Nat
  delivered : Nat
  crashed : Bool
deriving DecidableEq

/-- The monitor start state: channel open, nothing in flight. -/
def monInit : MonState := ⟨false, false, 0, 0, false⟩

/-- A ticker tick observed by the control loop (main.go lines 558-573): while
the loop is alive it dispatches one asynchronous fetch goroutine. -/
def tickStep (s : MonState) : MonState :=
  if s.chanClosed then s else { s with inFlight := s.inFlight + 1 }

/-- Context cancellation (signal or expiry) as seen by the monitor. -/
def cancelStep (s : MonState) : MonState := { s with cancelled := true }

/-- The control loop observes `ctx.Done()` and immediately runs
`close(diffChan); return` (main.go lines 555-557) — there is no wait for
in-flight fetch goroutines. -/
def closeStep (s : MonState) : MonState :=
  if s.cancelled && !s.chanClosed then { s with chanClosed := true } else s

/-- An in-flight fetch finishes with an error: the goroutine returns without
sending anything (main.go lines 563-566). -/
def fetchFailStep (s : MonState) : MonState :=
  if s.inFlight > 0 then { s with inFlight := s.inFlight - 1 } else s

/-- An in-flight fetch finishes successfully and executes `diffChan <- event`
(main.go lines 568-571); in Go, a send on a closed channel panics, crashing
the whole process, and otherwise the event is delivered. -/
def fetchOkStep (s : MonState) : MonState :=
  if s.inFlight > 0 then
    if s.chanClosed then { s with inFlight := s.inFlight - 1, crashed := true }
    else { s with inFlight := s.inFlight - 1, delivered := s.delivered + 1 }
  else s

theorem sfind_eq_none_iff (m : Snap) (k : String) : sfind m k = none ↔ k ∉ keysOf m := by
  induction m with
  | nil => simp [sfind, keysOf]
  | cons p rest ih =>
    obtain ⟨k', v⟩ := p
    by_cases h : k' = k
    · subst h
      simp [sfind, keysOf]
    · simp [sfind, h, keysOf, ih]
      tauto

theorem sget_eq_empty_of_not_mem {m : Snap} {k : String} (h : k ∉ keysOf m) :
    sget m k = "" := by
  rw [sget, (sfind_eq_none_iff m k).mpr h]
  rfl

theorem mem_keysOf_of_sget_ne {m : Snap} {k : String} (h : sget m k ≠ "") :
    k ∈ keysOf m := by
  by_contra hk
  exact h (sget_eq_empty_of_not_mem hk)

theorem mem_diffMaps {old new : Snap} {k o n : String} :
    (k, o, n) ∈ diffMaps old new ↔
      (k ∈ keysOf old ∨ k ∈ keysOf new) ∧ sget old k ≠ sget new k ∧
        o = sget old k ∧ n = sget new k := by
  rw [diffMaps, List.mem_filterMap]
  constructor
  · rintro ⟨a, ha, hif⟩
    rw [unionKeys, List.mem_dedup, List.mem_append] at ha
    by_cases hne : sget old a ≠ sget new a
    · rw [if_pos hne] at hif
      obtain ⟨rfl, rfl, rfl⟩ : a = k ∧ sget old a = o ∧ sget new a = n := by
        have := Option.some.inj hif
        simp only [Prod.mk.injEq] at this
        tauto
      simp only [keysOf] at ha
      exact ⟨ha, hne, rfl, rfl⟩
    · rw [if_neg hne] at hif
      exact absurd hif (by simp)
  · rintro ⟨hmem, hne, rfl, rfl⟩
    refine ⟨k, ?_, if_pos hne⟩
    rw [unionKeys, List.mem_dedup, List.mem_append]
    exact hmem

theorem diffMaps_keys (old new : Snap) :
    (diffMaps old new).map Prod.fst =
      (unionKeys old new).filter (fun k => decide (sget old k ≠ sget new k)) := by
  rw [diffMaps]
  induction unionKeys old new with
  | nil => rfl
  | cons a l ih =>
    simp only [List.filterMap_cons, List.filter_cons]
    by_cases h : sget old a ≠ sget new a
    · rw [if_pos h, List.map_cons, ih, if_pos (by simpa using h)]
    · rw [if_neg h, ih, if_neg (by simpa using h)]

theorem diffMaps_keys_nodup (old new : Snap) :
    ((diffMaps old new).map Prod.fst).Nodup := by
  rw [diffMaps_keys]
  exact (List.nodup_dedup _).filter _

/-- C2: the key set of `diffMaps old new` is exactly the set of keys `k` of the
union of the two key sets at which the two reads differ (an absent key read as
`""`), each such key carrying the pair `(old value, new value)`; no key is
listed twice. -/
theorem diffMaps_characterization (old new : Snap) :
    (∀ k o n : String,
      (k, o, n) ∈ diffMaps old new ↔
        (k ∈ keysOf old ∨ k ∈ keysOf new) ∧ sget old k ≠ sget new k ∧
          o = sget old k ∧ n = sget new k) ∧
    ((diffMaps old new).map Prod.fst).Nodup :=
  ⟨fun _ _ _ => mem_diffMaps, diffMaps_keys_nodup old new⟩

/-- C9: `diffMaps B A` has exactly the entries of `diffMaps A B` with the
`(old, new)` pair swapped (hence exactly the same keys). -/
theorem diffMaps_swap (A B : Snap) :
    ∀ k o n : String, (k, o, n) ∈ diffMaps A B ↔ (k, n, o) ∈ diffMaps B A := by
  intro k o n
  rw [mem_diffMaps, mem_diffMaps]
  constructor
  · rintro ⟨h1, h2, h3, h4⟩
    exact ⟨h1.symm, Ne.symm h2, h4, h3⟩
  · rintro ⟨h1, h2, h3, h4⟩
    exact ⟨h1.symm, Ne.symm h2, h4, h3⟩

/-- C7 counterexample: the key `"a"` is present only in the old snapshot, but
because its value there is `""` — indistinguishable from an absent key under
Go's zero-value map read — `diffMaps` produces no entry at all for it. -/
theorem only_one_side_key_missing_from_diff :
    "a" ∈ keysOf [("a", "")] ∧ "a" ∉ keysOf ([] : Snap) ∧
      diffMaps [("a", "")] [] = [] := by
  refine ⟨by decide, by decide, by decide⟩

/-- C7 (amended): a key present in only one snapshot appears in the change set
with the missing side read as `""`, provided its value on the present side is
non-empty; a one-sided key whose present value is `""` produces no entry. -/
theorem one_sided_keys_in_diff (A B : Snap) (k : String) :
    (k ∈ keysOf A → k ∉ keysOf B → sget A k ≠ "" →
      (k, sget A k, "") ∈ diffMaps A B) ∧
    (k ∈ keysOf B → k ∉ keysOf A → sget B k ≠ "" →
      (k, "", sget B k) ∈ diffMaps A B) := by
  constructor
  · intro hA hB hne
    rw [mem_diffMaps]
    rw [sget_eq_empty_of_not_mem hB]
    exact ⟨Or.inl hA, hne, rfl, rfl⟩
  · intro hB hA hne
    rw [mem_diffMaps]
    rw [sget_eq_empty_of_not_mem hA]
    exact ⟨Or.inr hB, fun h => hne h.symm, rfl, rfl⟩

/-- Witness for the amended C7 at a concrete one-sided pair of snapshots. -/
theorem one_sided_keys_in_diff_witness :
    ("t", "Hello", "") ∈ diffMaps [("t", "Hello")] [("u", "x")] :=
  (one_sided_keys_in_diff [("t", "Hello")] [("u", "x")] "t").1
    (by decide) (by decide) (by decide)

theorem sfind_filter_ne {m : Snap} {k k' : String} (h : k ≠ k') :
    sfind (m.filter (fun p => decide (p.1 ≠ k))) k' = sfind m k' := by
  induction m with
  | nil => rfl
  | cons p rest ih =>
    obtain ⟨a, b⟩ := p
    by_cases ha : a = k
    · subst ha
      simp only [List.filter_cons, decide_eq_true_eq]
      rw [if_neg (by simp), ih]
      rw [sfind, if_neg h]
    · simp only [List.filter_cons]
      rw [if_pos (by simpa using ha)]
      by_cases ha' : a = k'
      · subst ha'
        rw [sfind, if_pos rfl, sfind, if_pos rfl]
      · rw [sfind, if_neg ha', sfind, if_neg ha', ih]

theorem sfind_insertTag (m : Snap) (k v k' : String) :
    sfind (insertTag m k v) k' = if k = k' then some v else sfind m k' := by
  by_cases h : k = k'
  · rw [insertTag, sfind, if_pos h, if_pos h]
  · rw [insertTag, sfind, if_neg h, if_neg h, sfind_filter_ne h]

theorem applyWrites_append (m : Snap) (ws1 ws2 : List (String × String)) :
    applyWrites m (ws1 ++ ws2) = applyWrites (applyWrites m ws1) ws2 :=
  List.foldl_append ..

theorem procMeta_eq_applyWrites (m : Snap) (e : MetaElem) :
    procMeta m e = applyWrites m (metaWrites e) := by
  obtain ⟨p, n, c⟩ := e
  cases p <;> cases n <;> cases c <;>
    simp only [procMeta, metaWrites, applyAttr, applyWrites, List.append_nil,
      List.nil_append, List.foldl_cons, List.foldl_nil] <;>
    split_ifs <;>
    simp [applyWrites]

theorem foldl_procMeta_eq (doc : List MetaElem) :
    ∀ m : Snap, doc.foldl procMeta m = applyWrites m (docWrites doc) := by
  induction doc with
  | nil => intro m; rfl
  | cons e doc ih =>
    intro m
    have hd : docWrites (e :: doc) = metaWrites e ++ docWrites doc := by
      simp [docWrites]
    rw [List.foldl_cons, ih, hd, applyWrites_append, procMeta_eq_applyWrites]

theorem sfind_applyWrites (ws : List (String × String)) :
    ∀ (m : Snap) (k : String),
      sfind (applyWrites m ws) k = lastValAux ws k (sfind m k) := by
  induction ws with
  | nil => intro m k; rfl
  | cons p ws ih =>
    intro m k
    show sfind (applyWrites (insertTag m p.1 p.2) ws) k = _
    rw [ih, sfind_insertTag]
    show _ = lastValAux ws k (if p.1 = k then some p.2 else sfind m k)
    by_cases h : p.1 = k
    · rw [if_pos h]
    · rw [if_neg h]

theorem parseOG_lookup (doc : List MetaElem) (k : String) :
    sfind (parseOG doc) k = lastVal (docWrites doc) k := by
  rw [parseOG, foldl_procMeta_eq doc [], sfind_applyWrites]
  rfl

theorem lastValAux_isSome_of_isSome {ws : List (String × String)} {k : String}
    {d : Option String} (h : d.isSome) : (lastValAux ws k d).isSome := by
  induction ws generalizing d with
  | nil => exact h
  | cons p ws ih =>
    show (lastValAux ws k (if p.1 = k then some p.2 else d)).isSome
    by_cases hp : p.1 = k
    · exact ih (by rw [if_pos hp]; rfl)
    · rw [if_neg hp]; exact ih h

theorem lastValAux_isSome_of_mem {ws : List (String × String)} {k : String}
    {w : String × String} (hw : w ∈ ws) (hk : w.1 = k) :
    ∀ d : Option String, (lastValAux ws k d).isSome := by
  induction ws with
  | nil => cases hw
  | cons p ws ih =>
    intro d
    show (lastValAux ws k (if p.1 = k then some p.2 else d)).isSome
    rcases List.mem_cons.mp hw with rfl | hw'
    · exact lastValAux_isSome_of_isSome (by rw [if_pos hk]; rfl)
    · exact ih hw' _

theorem mem_keysOf_of_sfind_isSome {m : Snap} {k : String}
    (h : (sfind m k).isSome) : k ∈ keysOf m := by
  by_contra hk
  rw [(sfind_eq_none_iff m k).mpr hk] at h
  cases h

theorem mem_docWrites {doc : List MetaElem} {e : MetaElem}
    (he : e ∈ doc) {w : String × String} (hw : w ∈ metaWrites e) :
    w ∈ docWrites doc := by
  rw [docWrites, List.mem_flatten]
  exact ⟨metaWrites e, List.mem_map_of_mem metaWrites he, hw⟩

/-- C8: `parseOG` produces an entry for every `<meta>` element whose
`property` or `name` attribute carries the `"og:"` prefix and that has a
`content` attribute, the key being the attribute with the prefix stripped;
an element without a `content` attribute is skipped, leaving the map
unchanged (no error); and the value held at any key is the last store to that
key in traversal order (last occurrence wins). -/
theorem parseOG_contract (doc : List MetaElem) :
    (∀ e ∈ doc, ∀ a c : String, e.content = some c →
      (e.property = some a ∨ e.name = some a) → hasPfx "og:" a = true →
      trimPfx "og:" a ∈ keysOf (parseOG doc)) ∧
    (∀ (m : Snap) (e : MetaElem), e.content = none → procMeta m e = m) ∧
    (∀ k : String, sfind (parseOG doc) k = lastVal (docWrites doc) k) := by
  refine ⟨?_, ?_, parseOG_lookup doc⟩
  · intro e he a c hc hattr hpre
    have hw : (trimPfx "og:" a, c) ∈ metaWrites e := by
      obtain ⟨p, n, c'⟩ := e
      cases hc
      rcases hattr with hp | hn
      · cases hp
        cases n <;> simp [metaWrites, hpre]
      · cases hn
        cases p <;> simp [metaWrites, hpre]
    have hsome : (lastVal (docWrites doc) (trimPfx "og:" a)).isSome :=
      lastValAux_isSome_of_mem (mem_docWrites he hw) rfl none
    rw [← parseOG_lookup] at hsome
    exact mem_keysOf_of_sfind_isSome hsome
  · intro m e h
    obtain ⟨p, n, c⟩ := e
    simp only [MetaElem.content] at h
    subst h
    cases p <;> cases n <;> rfl

/-- Witness for C8 at a one-element document: the element
`<meta property="og:title" content="Hello">` yields the key `"title"`. -/
theorem parseOG_contract_witness :
    trimPfx "og:" "og:title" ∈
      keysOf (parseOG [⟨some "og:title", none, some "Hello"⟩]) :=
  (parseOG_contract [⟨some "og:title", none, some "Hello"⟩]).1
    ⟨some "og:title", none, some "Hello"⟩ (by decide) "og:title" "Hello" rfl
    (Or.inl rfl) (by decide)

theorem diffMaps_self (A : Snap) : diffMaps A A = [] := by
  rw [diffMaps, List.filterMap_eq_nil_iff]
  intro a _
  rw [if_neg (by simp)]

/-- C3 counterexample: a page carrying `<meta property="og:title" content="">`
extracts the key `"title"`, yet the first monitor cycle against the empty
baseline produces an empty change set — the extracted key does not appear as
an "added" change. -/
theorem first_cycle_misses_empty_value_key :
    "title" ∈ keysOf (parseOG [⟨some "og:title", none, some ""⟩]) ∧
      (renderCycle [] ⟨"t0", parseOG [⟨some "og:title", none, some ""⟩]⟩).1.1
        = [] := by
  decide

/-- C3 (amended): against the empty baseline, the first cycle's change set
holds exactly the extracted keys whose value is non-empty, each as an "added"
change `(old = "", new = value)` — a key extracted with the empty value does
not appear — the baseline becomes the event's snapshot, and a second fetch
returning an identical snapshot yields an empty change set that is not
rendered. -/
theorem monitor_first_and_second_cycle (og : Snap) (ts1 ts2 : String) :
    (∀ k o n : String,
      (k, o, n) ∈ (renderCycle [] ⟨ts1, og⟩).1.1 ↔
        o = "" ∧ n = sget og k ∧ n ≠ "") ∧
    (renderCycle [] ⟨ts1, og⟩).2 = og ∧
    (renderCycle og ⟨ts2, og⟩).1.1 = [] ∧
    (renderCycle og ⟨ts2, og⟩).1.2 = false := by
  refine ⟨?_, rfl, ?_, ?_⟩
  · intro k o n
    show (k, o, n) ∈ diffMaps [] og ↔ _
    rw [mem_diffMaps]
    constructor
    · rintro ⟨_, hne, rfl, rfl⟩
      exact ⟨rfl, rfl, fun h => hne (h ▸ rfl)⟩
    · rintro ⟨rfl, rfl, hne⟩
      exact ⟨Or.inr (mem_keysOf_of_sget_ne hne), fun h => hne h.symm, rfl, rfl⟩
  · show diffMaps og og = []
    exact diffMaps_self og
  · show decide ((diffMaps og og).length > 0) = false
    rw [diffMaps_self og]
    rfl

theorem og_pfx_inj {a b : String} (h : ("og:" ++ a : String) = "og:" ++ b) :
    a = b := by
  obtain ⟨la⟩ := a
  obtain ⟨lb⟩ := b
  have hd : "og:".data ++ la = "og:".data ++ lb := congrArg String.data h
  have hlb : la = lb := List.append_cancel_left hd
  rw [hlb]

/-- C10: the validation check classifies a required tag as missing iff its map
read is the empty string — a tag present with empty content is reported
exactly like an absent tag — `printMissing` returns 1 iff some required tag is
missing, and validate fails on a required tag whose value reads `""`. -/
theorem validate_empty_value_is_missing (og : Snap) (essentialsOnly : Bool)
    (k : String) (hk : k ∈ requiredTags essentialsOnly) :
    ((("og:" ++ k) ∈ missingTags og essentialsOnly) ↔ sget og k = "") ∧
    (printMissingCode og essentialsOnly = 1 ↔ missingTags og essentialsOnly ≠ []) ∧
    (sget og k = "" → validateFails og essentialsOnly = true) := by
  have hmem : (("og:" ++ k) ∈ missingTags og essentialsOnly) ↔ sget og k = "" := by
    rw [missingTags, List.mem_map]
    constructor
    · rintro ⟨k', hk', he⟩
      rw [List.mem_filter] at hk'
      have : k' = k := og_pfx_inj he
      subst this
      exact of_decide_eq_true hk'.2
    · intro hempty
      exact ⟨k, List.mem_filter.mpr ⟨hk, decide_eq_true hempty⟩, rfl⟩
  have hcode : printMissingCode og essentialsOnly = 1 ↔
      missingTags og essentialsOnly ≠ [] := by
    by_cases hm : missingTags og essentialsOnly = []
    · rw [printMissingCode, hm]
      simp
    · rw [printMissingCode, if_pos (by simpa [List.length_pos] using hm)]
      simp [hm]
  refine ⟨hmem, hcode, fun hempty => ?_⟩
  have hne : missingTags og essentialsOnly ≠ [] :=
    List.ne_nil_of_mem (hmem.mpr hempty)
  rw [validateFails, hcode.mpr hne]
  rfl

/-- Witness for C10: `og:title` present with empty content is reported missing
and validate fails. -/
theorem validate_empty_value_is_missing_witness :
    validateFails [("title", "")] true = true :=
  (validate_empty_value_is_missing [("title", "")] true "title" (by decide)).2.2
    (by decide)

theorem inspectAggregate_foldl (rs : List FetchResult) :
    ∀ (c : Nat) (l : List (String × Snap)),
      rs.foldl inspectStep (c, l) =
        (if rs.any isFailure then 1 else c, l ++ rs.filterMap succEntry) := by
  induction rs with
  | nil => intro c l; simp
  | cons r rs ih =>
    intro c l
    cases r with
    | failure u m =>
      rw [List.foldl_cons]
      show rs.foldl inspectStep (1, l) = _
      rw [ih]
      simp [isFailure, succEntry]
    | success u og =>
      rw [List.foldl_cons]
      show rs.foldl inspectStep (c, l ++ [(u, og)]) = _
      rw [ih]
      simp [isFailure, succEntry]

/-- C4: the bulk inspect aggregation, which folds over the complete list of
received results, reports failure (non-nil error) iff at least one per-URL
fetch failed; and every successful result contributes its entry to the
aggregate even when other URLs in the same batch fail. -/
theorem inspect_aggregate_failure (rs : List FetchResult) :
    (inspectFailed rs = true ↔ ∃ r ∈ rs, isFailure r = true) ∧
    (inspectAggregate rs).2 = rs.filterMap succEntry := by
  have h := inspectAggregate_foldl rs 0 []
  constructor
  · rw [inspectFailed, inspectAggregate, h]
    by_cases ha : rs.any isFailure
    · simp only [if_pos ha]
      rw [List.any_eq_true] at ha
      simpa using ha
    · simp only [if_neg ha]
      rw [List.any_eq_true] at ha
      simp [ha]
  · rw [inspectAggregate, h]
    simp

theorem url_runTask (fetch : String → Except String Snap) (u : String) :
    (runTask fetch u).url = u := by
  rw [runTask]
  cases fetch u <;> rfl

theorem map_url_workerRun (fetch : String → Except String Snap)
    (ts : List String) : (workerRun fetch ts).map FetchResult.url = ts := by
  induction ts with
  | nil => rfl
  | cons u ts ih =>
    simp only [workerRun, List.map_cons, url_runTask] at *
    rw [ih]

theorem poolOutputs_urls (fetch : String → Except String Snap)
    (assignment : List (List String)) :
    (poolOutputs fetch assignment).map FetchResult.url = assignment.flatten := by
  induction assignment with
  | nil => rfl
  | cons ts rest ih =>
    simp only [poolOutputs, List.map_cons, List.flatten_cons,
      List.map_append] at *
    rw [map_url_workerRun, ih]

theorem clampWorkers_bounds (w : Int) (numCPU L : Nat) (hcpu : 1 ≤ numCPU)
    (hL : 1 ≤ L) : 1 ≤ clampWorkers w numCPU L ∧ clampWorkers w numCPU L ≤ L := by
  simp only [clampWorkers]
  split_ifs <;> omega

/-- C1: the clamped worker count W satisfies 1 ≤ W ≤ L for a non-empty URL
list (a non-positive request defaults to `runtime.NumCPU()`); and for every
execution of the pool — every distribution of the submitted URLs over the W
workers and every interleaving in which the aggregator receives the results —
the aggregator receives exactly L results whose URL multiset is exactly the
submitted URL multiset (each URL in exactly one result, none dropped or
duplicated), and this holds for every fetch-outcome function, i.e. no pattern
of individual failures blocks or aborts the other workers' results. -/
theorem inspect_pool_complete (urls : List String)
    (fetch : String → Except String Snap) (w : Int) (numCPU : Nat)
    (assignment : List (List String)) (out : List FetchResult)
    (hne : urls ≠ []) (hcpu : 1 ≤ numCPU)
    (hW : assignment.length = clampWorkers w numCPU urls.length)
    (hassign : assignment.flatten.Perm urls)
    (hout : out.Perm (poolOutputs fetch assignment)) :
    (1 ≤ clampWorkers w numCPU urls.length ∧
      clampWorkers w numCPU urls.length ≤ urls.length) ∧
    out.length = urls.length ∧ (out.map FetchResult.url).Perm urls := by
  have hL : 1 ≤ urls.length := List.length_pos.mpr hne
  have hperm : (out.map FetchResult.url).Perm urls := by
    have h1 := hout.map FetchResult.url
    rw [poolOutputs_urls] at h1
    exact h1.trans hassign
  refine ⟨clampWorkers_bounds w numCPU urls.length hcpu hL, ?_, hperm⟩
  have := hperm.length_eq
  rw [List.length_map] at this
  exact this

/-- Witness for C1: three URLs, two workers (defaulted from `NumCPU = 2`),
one failing fetch, results received out of order: still exactly 3 results,
one per URL. -/
theorem inspect_pool_complete_witness :
    ([FetchResult.failure "b" "boom",
      FetchResult.success "a" [("title", "x")],
      FetchResult.success "c" [("title", "x")]].map FetchResult.url).Perm
      ["a", "b", "c"] :=
  (inspect_pool_complete ["a", "b", "c"]
    (fun u => if u = "b" then Except.error "boom" else Except.ok [("title", "x")])
    0 2 [["a", "c"], ["b"]]
    [FetchResult.failure "b" "boom", FetchResult.success "a" [("title", "x")],
      FetchResult.success "c" [("title", "x")]]
    (by decide) (by decide) (by decide) (by decide) (by decide)).2.2

/-- C5 (code bug): one tick dispatches a fetch; cancellation arrives; the
control loop observes `ctx.Done()` and immediately closes `diffChan` without
waiting for the in-flight fetch; that fetch then completes successfully and
executes its send on the closed channel, which panics and crashes the
process — the channel is not closed "once outstanding work finishes". -/
theorem monitor_close_races_inflight_send :
    (fetchOkStep (closeStep (cancelStep (tickStep monInit)))).crashed = true := by
  decide

/-- C6: a failed fetch cycle emits no `MonitorEvent` (the goroutine only
reports the error and returns), the render loop receiving no event leaves the
baseline unchanged and renders nothing, a failed fetch neither closes the
channel nor cancels nor crashes anything — the loop keeps ticking — and the
fetch layer turns a transport error, and any HTTP status ≥ 400 (which covers
timeouts surfacing as transport errors and error statuses alike), into an
error outcome. -/
theorem monitor_fetch_error_skips_cycle :
    (∀ ts msg : String, fetchTask ts (Except.error msg) = none) ∧
    (∀ (ts msg : String) (prev : Snap),
      renderMany prev ((fetchTask ts (Except.error msg)).toList) = (prev, [])) ∧
    (∀ s : MonState, (fetchFailStep s).chanClosed = s.chanClosed ∧
      (fetchFailStep s).cancelled = s.cancelled ∧
      (fetchFailStep s).crashed = s.crashed) ∧
    (∀ (e : String) (st : Nat) (b : String),
      isErrE (httpOutcome (some e) st b) = true) ∧
    (∀ (st : Nat) (b : String), 400 ≤ st →
      isErrE (httpOutcome none st b) = true) := by
  refine ⟨fun ts msg => rfl, fun ts msg prev => rfl, ?_, fun e st b => rfl, ?_⟩
  · intro s
    rw [fetchFailStep]
    split_ifs <;> exact ⟨rfl, rfl, rfl⟩
  · intro st b h
    rw [httpOutcome]
    rw [if_pos h]
    rfl

/-- Witness for C6 at HTTP status 404: the fetch outcome is an error. -/
theorem monitor_fetch_error_skips_cycle_witness :
    isErrE (httpOutcome none 404 "<html></html>") = true :=
  monitor_fetch_error_skips_cycle.2.2.2.2 404 "<html></html>" (by decide)

/-- Witness for C2 at a concrete changed key. -/
theorem diffMaps_characterization_witness :
    ("t", "Old", "New") ∈ diffMaps [("t", "Old")] [("t", "New")] :=
  ((diffMaps_characterization [("t", "Old")] [("t", "New")]).1 "t" "Old" "New").mpr
    (by decide)

/-- Witness for C9 at a concrete pair of snapshots. -/
theorem diffMaps_swap_witness :
    ("t", "New", "Old") ∈ diffMaps [("t", "New")] [("t", "Old")] :=
  (diffMaps_swap [("t", "Old")] [("t", "New")] "t" "Old" "New").mp (by decide)

/-- Witness for the amended C3: a second identical snapshot is not rendered. -/
theorem monitor_first_and_second_cycle_witness :
    (renderCycle [("t", "Hello")] ⟨"ts2", [("t", "Hello")]⟩).1.2 = false :=
  (monitor_first_and_second_cycle [("t", "Hello")] "ts1" "ts2").2.2.2

/-- Witness for C4 at a batch with one success and one failure. -/
theorem inspect_aggregate_failure_witness :
    (inspectAggregate [FetchResult.success "a" [("t", "v")],
        FetchResult.failure "b" "boom"]).2 =
      [FetchResult.success "a" [("t", "v")],
        FetchResult.failure "b" "boom"].filterMap succEntry :=
  (inspect_aggregate_failure
    [FetchResult.success "a" [("t", "v")], FetchResult.failure "b" "boom"]).2
